import Mathlib

/-!
Verification of the EchoVault keyspace engine against its specification.

The Go sources embedded here are the keyspace store operations
(`getKeys`, `keysExist`, `getValues`, `setValues`, `setExpiry`,
`deleteKey`), the memory governor (`adjustMemoryUsage`, volatile-random
branch), the active TTL sampler (`evictKeysWithExpiredTTL`) and the
snapshot-barrier portion of the command dispatcher (`handleCommand`).

Modelling conventions:
- A Go `map[string]T` is an association list with a replace-on-update
  write (`mapSet`), first-match lookup (`mapGet`) and binding removal
  (`mapDel`).
- `time.Time` is a `Nat` instant; the zero value `time.Time{}` that the
  source uses as the "no expiry" sentinel is `Option.none`.
- A Go `interface{}` value is `Option String`; the Go `nil` interface is
  `none`.
- Randomness (`rand.Intn`) and process heap readings
  (`runtime.ReadMemStats`) are oracle parameters supplied to the
  embedded functions.
- Collaborators that live outside the embedded sources
  (`raftApplyDeleteKey`, `ForwardDeleteKey`) are modelled by their local
  effect: a consensus-applied delete removes the key locally, a forward
  leaves the local state untouched.
-/

namespace EchoVault

/-- A Go `interface{}` payload; `none` is the Go `nil` interface. -/
abbrev Val := Option String

/-- Entry of the keyspace store: `internal.KeyData` with fields `Value`
and `ExpireAt`. `expireAt = none` models the zero `time.Time{}`. -/
structure KeyData where
  value : Val
  expireAt : Option Nat
  deriving Repr, DecidableEq

/-- First-match lookup in an association list: Go `m[k]` read (with
presence bit via `Option`). -/
def mapGet {α : Type} : List (String × α) → String → Option α
  | [], _ => none
  | p :: rest, k => if p.1 = k then some p.2 else mapGet rest k

/-- Replace-or-append write in an association list: Go `m[k] = v`. -/
def mapSet {α : Type} : List (String × α) → String → α → List (String × α)
  | [], k, v => [(k, v)]
  | p :: rest, k, v => if p.1 = k then (k, v) :: rest else p :: mapSet rest k v

/-- Binding removal in an association list: Go `delete(m, k)`. -/
def mapDel {α : Type} : List (String × α) → String → List (String × α)
  | [], _ => []
  | p :: rest, k => if p.1 = k then mapDel rest k else p :: mapDel rest k

/-- The mutable fields of the `EchoVault` server that the embedded
operations read and write. The two eviction caches are kept as their
key sets; the claims below never depend on heap order inside a cache. -/
structure ServerState where
  store : List (String × KeyData)
  keysWithExpiry : List String
  lfuCache : List String
  lruCache : List String
  snapshotChangeCount : Nat
  deriving Repr, DecidableEq

/-- The configuration fields the embedded operations consult. -/
structure Config where
  maxMemory : Nat
  evictionPolicy : String
  inCluster : Bool
  isRaftLeader : Bool
  forwardCommand : Bool
  evictionSample : Nat
  deriving Repr, DecidableEq

/-- Modelled from the spec: the `internal/constants` package is not
under the embedded sources; the policy names are those of the spec's
eviction-policy table. -/
def NoEviction : String := "noeviction"

/-- Eviction policy name (spec table, §4.E). -/
def AllKeysLFU : String := "allkeys-lfu"

/-- Eviction policy name (spec table, §4.E). -/
def VolatileLFU : String := "volatile-lfu"

/-- Eviction policy name (spec table, §4.E). -/
def AllKeysLRU : String := "allkeys-lru"

/-- Eviction policy name (spec table, §4.E). -/
def VolatileLRU : String := "volatile-lru"

/-- Eviction policy name (spec table, §4.E). -/
def AllKeysRandom : String := "allkeys-random"

/-- Eviction policy name (spec table, §4.E). -/
def VolatileRandom : String := "volatile-random"

/-- Source `getKeys`: preallocates a slice of length `len(store)` and
then appends each key, so the result starts with one empty string per
stored entry. -/
def getKeys (s : ServerState) : List String :=
  List.replicate s.store.length "" ++ s.store.map Prod.fst

/-- Source `keysExist`: reports presence per requested key. -/
def keysExist (s : ServerState) (keys : List String) : List (String × Bool) :=
  keys.foldl (fun acc key => mapSet acc key (mapGet s.store key).isSome) []

/-- Source expiry test `entry.ExpireAt != (time.Time{}) &&
entry.ExpireAt.Before(now)`: a set expiry strictly earlier than `now`. -/
def isExpired (e : KeyData) (now : Nat) : Bool :=
  match e.expireAt with
  | none => false
  | some t => decide (t < now)

/-- Source `deleteKey`: removes the entry from the store, removes the
key from the volatile-key index, and removes the key from whichever
eviction cache the configured policy keeps active. -/
def deleteKey (cfg : Config) (s : ServerState) (key : String) : ServerState :=
  { s with
    store := mapDel s.store key,
    keysWithExpiry := s.keysWithExpiry.filter (fun k => k ≠ key),
    lfuCache :=
      if cfg.evictionPolicy = AllKeysLFU ∨ cfg.evictionPolicy = VolatileLFU then
        s.lfuCache.filter (fun k => k ≠ key)
      else s.lfuCache,
    lruCache :=
      if cfg.evictionPolicy = AllKeysLRU ∨ cfg.evictionPolicy = VolatileLRU then
        s.lruCache.filter (fun k => k ≠ key)
      else s.lruCache }

/-- True when a deletion issued on this node removes the key from the
local store: standalone mode calls `deleteKey` directly and a raft
leader applies the delete through consensus; a follower only forwards. -/
def deletesLocally (cfg : Config) : Bool :=
  !cfg.inCluster || cfg.isRaftLeader

/-- Role-routed key deletion shared by `getValues` lazy expiry and the
TTL sampler: standalone deletes directly; a raft leader issues
`raftApplyDeleteKey`, modelled by its local effect of removing the key;
a follower forwards (`ForwardDeleteKey`), leaving local state as is. -/
def routedDeleteKey (cfg : Config) (s : ServerState) (key : String) : ServerState :=
  if !cfg.inCluster then deleteKey cfg s key
  else if cfg.isRaftLeader then deleteKey cfg s key
  else s

/-- Body of the per-key loop of source `getValues` (lines 76 to 107):
an absent key yields `nil`; a set-and-passed expiry triggers the
role-routed deletion and yields `nil`; otherwise the stored value is
yielded. The accumulator pairs the values map under construction with
the current server state. -/
def getValuesStep (cfg : Config) (now : Nat) (acc : List (String × Val) × ServerState)
    (key : String) : List (String × Val) × ServerState :=
  match mapGet acc.2.store key with
  | none => (mapSet acc.1 key none, acc.2)
  | some entry =>
    if isExpired entry now then
      (mapSet acc.1 key none, routedDeleteKey cfg acc.2 key)
    else
      (mapSet acc.1 key entry.value, acc.2)

/-- Source `getValues`: folds the per-key loop over the requested keys,
starting from an empty values map. The trailing asynchronous cache
update is a fire-and-forget goroutine and is not part of the returned
values or of the synchronous store mutation. -/
def getValues (cfg : Config) (now : Nat) (s : ServerState) (keys : List String) :
    List (String × Val) × ServerState :=
  keys.foldl (getValuesStep cfg now) ([], s)

/-- Spec-side definition (for comparison with the source embedding):
the per-key result the spec prescribes for `getValues` — nil when the
key is absent, nil when the entry expiry is set and earlier than now,
the stored value otherwise. -/
def specValueAnswer (s : ServerState) (now : Nat) (k : String) : Val :=
  match mapGet s.store k with
  | none => none
  | some e => if isExpired e now then none else e.value

/-- Relation between the store at entry to `getValues` and any
intermediate state of its loop: each key is either untouched or has
been lazily deleted, and a lazily deleted key is one the spec already
answers `nil` for. -/
def Evolved (s st : ServerState) (now : Nat) : Prop :=
  ∀ k, mapGet st.store k = mapGet s.store k ∨
    (mapGet st.store k = none ∧ specValueAnswer s now k = none)

/-- Modelled from the spec: `internal.IsMaxMemoryExceeded` is not among
the embedded sources. The spec states that the write path fails when
heap-inuse is at or above the configured limit; the current heap-in-use
reading is an oracle argument. -/
def IsMaxMemoryExceeded (maxMemory heapInuse : Nat) : Bool :=
  decide (maxMemory ≤ heapInuse)

/-- Expiry kept by a `setValues` write (source lines 128 to 131): the
current entry expiry when the key exists, the zero time otherwise. -/
def preservedExpiry (st : ServerState) (k : String) : Option Nat :=
  match mapGet st.store k with
  | some old => old.expireAt
  | none => none

/-- Body of the source `setValues` write loop: stores the new value
under the preserved expiry and, in standalone mode, bumps the snapshot
change counter. -/
def setValuesEntry (cfg : Config) (st : ServerState) (kv : String × Val) : ServerState :=
  let st1 := { st with
    store := mapSet st.store kv.1 { value := kv.2, expireAt := preservedExpiry st kv.1 } }
  if !cfg.inCluster then
    { st1 with snapshotChangeCount := st1.snapshotChangeCount + 1 }
  else st1

/-- Source `setValues`: refuses the write with the capacity error when
max memory is exceeded under the `noeviction` policy, before touching
any entry; otherwise runs the write loop over the argument entries.
The trailing asynchronous cache update is a goroutine and not part of
the synchronous effect. -/
def setValues (cfg : Config) (heapInuse : Nat) (s : ServerState)
    (entries : List (String × Val)) : Option String × ServerState :=
  if IsMaxMemoryExceeded cfg.maxMemory heapInuse = true ∧ cfg.evictionPolicy = NoEviction then
    (some "max memory reached, key value not set", s)
  else
    (none, entries.foldl (setValuesEntry cfg) s)

/-- Go read `server.store[key].Value`: the zero value of the entry type
has a `nil` payload, so an absent key reads as `none`. -/
def currentValue (s : ServerState) (key : String) : Val :=
  match mapGet s.store key with
  | some entry => entry.value
  | none => none

/-- Source `setExpiry`: rewrites the entry keeping the current value
(the zero value when the key is absent) under the new expiry, then adds
the key to the volatile-key index unless already present. The `touch`
cache update is a goroutine and not part of the synchronous effect. -/
def setExpiry (s : ServerState) (key : String) (expireAt : Option Nat) : ServerState :=
  let st1 := { s with
    store := mapSet s.store key { value := currentValue s key, expireAt := expireAt } }
  if key ∈ st1.keysWithExpiry then st1
  else { st1 with keysWithExpiry := st1.keysWithExpiry ++ [key] }

/-- Re-sampling decision on source line 487: the deleted count is
divided by the sample size in integer arithmetic before multiplying by
one hundred, then compared with the threshold of twenty. -/
def shouldResample (deletedCount sampleSize : Nat) : Bool :=
  decide (deletedCount / sampleSize * 100 ≥ 20)

/-- One sampling pass of source `evictKeysWithExpiredTTL`. The random
draw of distinct keys from the volatile index is the `sampled` oracle
argument (theorems about the pass constrain it to distinct members of
the index, of the sampled size). The deletion loop on lines 465 to 477
deletes every sampled key and counts each deletion; it performs no
expiry check. The returned flag is the line-487 decision to sample
again immediately. -/
def evictKeysWithExpiredTTLPass (cfg : Config) (s : ServerState) (sampled : List String) :
    Bool × ServerState :=
  if cfg.inCluster && !cfg.isRaftLeader then (false, s)
  else
    let sampleSize := min cfg.evictionSample s.keysWithExpiry.length
    let deletedCount := sampled.length
    let s1 := sampled.foldl (routedDeleteKey cfg) s
    if sampleSize = 0 then (false, s1)
    else (shouldResample deletedCount sampleSize, s1)

/-- Result of one memory-governor invocation. A Go runtime panic (such
as `rand.Intn` called with a non-positive bound) is distinguished from
an error returned to the caller. -/
inductive GovOutcome where
  | ok
  | errorOut (msg : String)
  | panicked (msg : String)
  deriving Repr, DecidableEq

/-- Eviction loop of the `volatile-random` branch of source
`adjustMemoryUsage` (lines 389 to 417). Each oracle element supplies
the `rand.Intn` draw and the heap reading taken after the forced
garbage collection of that iteration; the oracle length bounds the
modelled iterations. `rand.Intn` with a zero bound — the empty
volatile index — is a runtime panic. -/
def volatileRandomEvictLoop (cfg : Config) :
    ServerState → List (Nat × Nat) → GovOutcome × ServerState
  | s, [] => (GovOutcome.ok, s)
  | s, (draw, heapAfter) :: rest =>
    if s.keysWithExpiry.length = 0 then
      (GovOutcome.panicked "rand.Intn: invalid argument", s)
    else
      let key := s.keysWithExpiry.getD (draw % s.keysWithExpiry.length) ""
      let s1 := routedDeleteKey cfg s key
      if heapAfter < cfg.maxMemory then (GovOutcome.ok, s1)
      else volatileRandomEvictLoop cfg s1 rest

/-- Source `adjustMemoryUsage` for a `volatile-random` configuration
(the branch of the policy switch the claims concern): the max-memory
zero guard, the pre-GC and post-GC heap checks (`heap1` and `heap2`
oracle readings), then the volatile-random eviction loop. -/
def adjustMemoryUsageVolatileRandom (cfg : Config) (heap1 heap2 : Nat)
    (oracle : List (Nat × Nat)) (s : ServerState) : GovOutcome × ServerState :=
  if cfg.maxMemory = 0 then (GovOutcome.ok, s)
  else if heap1 < cfg.maxMemory then (GovOutcome.ok, s)
  else if heap2 < cfg.maxMemory then (GovOutcome.ok, s)
  else volatileRandomEvictLoop cfg s oracle

/-- The routing inputs of one `handleCommand` invocation once the
command is decoded and resolved (source lines 70 to 108 run before any
touch of the barrier flags and return early on their own failures):
whether the resolved command is a write (`internal.IsWriteCommand`,
modelled from the spec as the non-empty write-keys test), the resolved
`sync` flag, and the outcomes of the local handler and of
`raftApplyCommand` supplied as oracles. -/
structure DispatchCommand where
  isWrite : Bool
  sync : Bool
  handlerResult : Except String String
  raftApplyResult : Except String String

/-- The two atomic snapshot-barrier flags of the dispatcher. -/
structure BarrierFlags where
  stateCopyInProgress : Bool
  stateMutationInProgress : Bool
  deriving Repr, DecidableEq

/-- Source `handleCommand` from the snapshot barrier on (lines 110 to
152). A write command spin-waits until `stateCopyInProgress` is
observed false and then sets `stateMutationInProgress`; the embedding
models the exit of that wait, so it covers runs where the copy flag is
eventually observed false. Returns the command result together with the
barrier flags as they stand when `handleCommand` returns: only the
successful local-execution path (source line 130) stores false into
`stateMutationInProgress`. -/
def handleCommandCore (cfg : Config) (c : DispatchCommand) (flags : BarrierFlags) :
    Except String String × BarrierFlags :=
  let flags1 := if c.isWrite then { flags with stateMutationInProgress := true } else flags
  if !cfg.inCluster || !c.sync then
    match c.handlerResult with
    | Except.error e => (Except.error e, flags1)
    | Except.ok res => (Except.ok res, { flags1 with stateMutationInProgress := false })
  else if cfg.isRaftLeader then
    match c.raftApplyResult with
    | Except.error e => (Except.error e, flags1)
    | Except.ok res => (Except.ok res, flags1)
  else if cfg.forwardCommand then
    (Except.ok "+OK", flags1)
  else
    (Except.error "not cluster leader, cannot carry out command", flags1)

/-- Standalone configuration with no memory limit. -/
def cfgStandalone : Config :=
  { maxMemory := 0, evictionPolicy := NoEviction, inCluster := false,
    isRaftLeader := false, forwardCommand := false, evictionSample := 20 }

/-- Standalone configuration with a ten-byte memory limit under the
`noeviction` policy. -/
def cfgNoEvict10 : Config :=
  { maxMemory := 10, evictionPolicy := NoEviction, inCluster := false,
    isRaftLeader := false, forwardCommand := false, evictionSample := 20 }

/-- Standalone configuration with a hundred-byte memory limit under the
`volatile-random` policy. -/
def cfgVolatileRandom : Config :=
  { maxMemory := 100, evictionPolicy := VolatileRandom, inCluster := false,
    isRaftLeader := false, forwardCommand := false, evictionSample := 20 }

/-- Server state with an empty store. -/
def emptyState : ServerState :=
  { store := [], keysWithExpiry := [], lfuCache := [], lruCache := [],
    snapshotChangeCount := 0 }

/-- One entry under key `a`, expiry 10, already past at clock 20. -/
def sExpired : ServerState :=
  { emptyState with
    store := [("a", { value := some "v", expireAt := some 10 })],
    keysWithExpiry := ["a"] }

/-- One entry under key `k`, expiry 100, not yet reached at clock 50. -/
def sUnexpired : ServerState :=
  { emptyState with
    store := [("k", { value := some "v", expireAt := some 100 })],
    keysWithExpiry := ["k"] }

/-- One non-volatile entry under key `a`; the volatile index is empty. -/
def sOneKey : ServerState :=
  { emptyState with
    store := [("a", { value := some "v", expireAt := none })] }

/-- One entry under key `a` with value `old` and expiry 99. -/
def sPreset : ServerState :=
  { emptyState with
    store := [("a", { value := some "old", expireAt := some 99 })] }

end EchoVault

namespace EchoVault

theorem mapGet_mapSet_self {α : Type} (m : List (String × α)) (k : String) (v : α) :
    mapGet (mapSet m k v) k = some v := by
  induction m with
  | nil => simp [mapSet, mapGet]
  | cons p rest ih =>
    by_cases h : p.1 = k
    · simp [mapSet, mapGet, h]
    · simp [mapSet, mapGet, h, ih]

theorem mapGet_mapSet_ne {α : Type} (m : List (String × α)) (k k' : String) (v : α)
    (h : k' ≠ k) : mapGet (mapSet m k v) k' = mapGet m k' := by
  induction m with
  | nil => simp [mapSet, mapGet, Ne.symm h]
  | cons p rest ih =>
    by_cases hp : p.1 = k
    · simp [mapSet, mapGet, hp, Ne.symm h]
    · by_cases hp' : p.1 = k'
      · simp [mapSet, mapGet, hp, hp', h]
      · simp [mapSet, mapGet, hp, hp', ih]

theorem mapGet_mapDel_self {α : Type} (m : List (String × α)) (k : String) :
    mapGet (mapDel m k) k = none := by
  induction m with
  | nil => simp [mapDel, mapGet]
  | cons p rest ih =>
    by_cases h : p.1 = k
    · simp [mapDel, h, ih]
    · simp [mapDel, mapGet, h, ih]

theorem mapGet_mapDel_ne {α : Type} (m : List (String × α)) (k k' : String)
    (h : k' ≠ k) : mapGet (mapDel m k) k' = mapGet m k' := by
  induction m with
  | nil => simp [mapDel]
  | cons p rest ih =>
    by_cases hp : p.1 = k
    · have hp' : p.1 ≠ k' := by
        intro hh
        exact h (hh ▸ hp)
      simp [mapDel, mapGet, hp, hp', ih, Ne.symm h]
    · by_cases hp' : p.1 = k'
      · simp [mapDel, mapGet, hp, hp', h]
      · simp [mapDel, mapGet, hp, hp', ih]

theorem routedDeleteKey_eq (cfg : Config) (s : ServerState) (key : String) :
    routedDeleteKey cfg s key = deleteKey cfg s key ∨ routedDeleteKey cfg s key = s := by
  unfold routedDeleteKey
  by_cases h1 : cfg.inCluster <;> by_cases h2 : cfg.isRaftLeader <;> simp [h1, h2]

theorem mapGet_routedDeleteKey_ne (cfg : Config) (s : ServerState) (key k : String)
    (h : k ≠ key) : mapGet (routedDeleteKey cfg s key).store k = mapGet s.store k := by
  rcases routedDeleteKey_eq cfg s key with hr | hr
  · rw [hr]
    exact mapGet_mapDel_ne s.store key k h
  · rw [hr]

theorem mapGet_routedDeleteKey_self (cfg : Config) (s : ServerState) (key : String)
    (h : deletesLocally cfg = true) :
    mapGet (routedDeleteKey cfg s key).store key = none := by
  have hdel : routedDeleteKey cfg s key = deleteKey cfg s key := by
    unfold routedDeleteKey
    by_cases h1 : cfg.inCluster
    · have h2 : cfg.isRaftLeader = true := by
        simpa [deletesLocally, h1] using h
      simp [h1, h2]
    · simp [h1]
  rw [hdel]
  exact mapGet_mapDel_self s.store key

theorem mapGet_routedDeleteKey_none (cfg : Config) (s : ServerState) (key k : String)
    (h : mapGet s.store k = none) :
    mapGet (routedDeleteKey cfg s key).store k = none := by
  by_cases hk : k = key
  · subst hk
    rcases routedDeleteKey_eq cfg s k with hr | hr <;> rw [hr]
    · exact mapGet_mapDel_self s.store k
    · exact h
  · rw [mapGet_routedDeleteKey_ne cfg s key k hk]
    exact h

theorem getValuesStep_fst (cfg : Config) (now : Nat) (acc : List (String × Val) × ServerState)
    (key : String) :
    (getValuesStep cfg now acc key).1 = mapSet acc.1 key (specValueAnswer acc.2 now key) := by
  cases h : mapGet acc.2.store key with
  | none => simp [getValuesStep, specValueAnswer, h]
  | some e =>
    by_cases he : isExpired e now = true <;>
      simp [getValuesStep, specValueAnswer, h, he]

theorem getValuesStep_snd_cases (cfg : Config) (now : Nat)
    (acc : List (String × Val) × ServerState) (key : String) :
    (getValuesStep cfg now acc key).2 = acc.2 ∨
    (∃ e, mapGet acc.2.store key = some e ∧ isExpired e now = true ∧
      (getValuesStep cfg now acc key).2 = routedDeleteKey cfg acc.2 key) := by
  cases h : mapGet acc.2.store key with
  | none =>
    left
    simp [getValuesStep, h]
  | some e =>
    by_cases he : isExpired e now = true
    · right
      exact ⟨e, rfl, he, by simp [getValuesStep, h, he]⟩
    · left
      simp [getValuesStep, h, he]

theorem specValueAnswer_congr (s st : ServerState) (now : Nat) (hEv : Evolved s st now)
    (k : String) : specValueAnswer st now k = specValueAnswer s now k := by
  rcases hEv k with h | ⟨h1, h2⟩
  · unfold specValueAnswer
    rw [h]
  · rw [h2]
    unfold specValueAnswer
    rw [h1]

theorem getValuesStep_evolved (cfg : Config) (now : Nat) (s : ServerState)
    (acc : List (String × Val) × ServerState) (key : String)
    (hEv : Evolved s acc.2 now) :
    Evolved s (getValuesStep cfg now acc key).2 now := by
  rcases getValuesStep_snd_cases cfg now acc key with h | ⟨e, hg, he, h⟩
  · rw [h]
    exact hEv
  · rw [h]
    intro k
    by_cases hk : k = key
    · subst hk
      rcases routedDeleteKey_eq cfg acc.2 k with hr | hr
      · right
        constructor
        · rw [hr]
          exact mapGet_mapDel_self acc.2.store k
        · rcases hEv k with hl | ⟨h1, h2⟩
          · unfold specValueAnswer
            rw [← hl, hg]
            simp [he]
          · exact h2
      · rw [hr]
        exact hEv k
    · rw [mapGet_routedDeleteKey_ne cfg acc.2 key k hk]
      exact hEv k

theorem getValuesFold_store_none (cfg : Config) (now : Nat) :
    ∀ (keys : List String) (acc : List (String × Val) × ServerState) (k : String),
      mapGet acc.2.store k = none →
      mapGet (keys.foldl (getValuesStep cfg now) acc).2.store k = none := by
  intro keys
  induction keys with
  | nil =>
    intro acc k h
    simpa using h
  | cons key rest ih =>
    intro acc k h
    rw [List.foldl_cons]
    apply ih
    rcases getValuesStep_snd_cases cfg now acc key with hs | ⟨e, _, _, hs⟩ <;> rw [hs]
    · exact h
    · exact mapGet_routedDeleteKey_none cfg acc.2 key k h

theorem getValuesFold_fst_not_mem (cfg : Config) (now : Nat) :
    ∀ (keys : List String) (acc : List (String × Val) × ServerState) (k : String),
      k ∉ keys →
      mapGet (keys.foldl (getValuesStep cfg now) acc).1 k = mapGet acc.1 k := by
  intro keys
  induction keys with
  | nil =>
    intro acc k _
    rfl
  | cons key rest ih =>
    intro acc k hk
    have hne : k ≠ key := by
      intro he
      exact hk (by rw [he]; exact List.mem_cons_self _ _)
    rw [List.foldl_cons, ih _ k (fun hm => hk (List.mem_cons_of_mem _ hm)),
      getValuesStep_fst]
    exact mapGet_mapSet_ne acc.1 key k _ hne

theorem getValuesFold_spec (cfg : Config) (now : Nat) (s : ServerState) :
    ∀ (keys : List String) (acc : List (String × Val) × ServerState),
      Evolved s acc.2 now →
      Evolved s (keys.foldl (getValuesStep cfg now) acc).2 now ∧
      ∀ k, k ∈ keys →
        mapGet (keys.foldl (getValuesStep cfg now) acc).1 k =
          some (specValueAnswer s now k) := by
  intro keys
  induction keys with
  | nil =>
    intro acc hEv
    exact ⟨hEv, fun k hk => absurd hk (List.not_mem_nil k)⟩
  | cons key rest ih =>
    intro acc hEv
    have hEv' : Evolved s (getValuesStep cfg now acc key).2 now :=
      getValuesStep_evolved cfg now s acc key hEv
    have hmain := ih (getValuesStep cfg now acc key) hEv'
    rw [List.foldl_cons]
    refine ⟨hmain.1, ?_⟩
    intro k hk
    by_cases hmem : k ∈ rest
    · exact hmain.2 k hmem
    · have hkey : k = key := by
        rcases List.mem_cons.mp hk with h | h
        · exact h
        · exact absurd h hmem
      subst hkey
      rw [getValuesFold_fst_not_mem cfg now rest _ k hmem, getValuesStep_fst,
        mapGet_mapSet_self, specValueAnswer_congr s acc.2 now hEv k]

theorem getValuesFold_deletes (cfg : Config) (now : Nat) (s : ServerState)
    (hrole : deletesLocally cfg = true) :
    ∀ (keys : List String) (acc : List (String × Val) × ServerState),
      Evolved s acc.2 now →
      ∀ k, k ∈ keys → ∀ e, mapGet s.store k = some e → isExpired e now = true →
        mapGet (keys.foldl (getValuesStep cfg now) acc).2.store k = none := by
  intro keys
  induction keys with
  | nil =>
    intro acc _ k hk
    exact absurd hk (List.not_mem_nil k)
  | cons key rest ih =>
    intro acc hEv k hk e hse hexp
    have hEv' : Evolved s (getValuesStep cfg now acc key).2 now :=
      getValuesStep_evolved cfg now s acc key hEv
    rw [List.foldl_cons]
    by_cases hmem : k ∈ rest
    · exact ih _ hEv' k hmem e hse hexp
    · have hkey : k = key := by
        rcases List.mem_cons.mp hk with h | h
        · exact h
        · exact absurd h hmem
      subst hkey
      have hstep : mapGet (getValuesStep cfg now acc k).2.store k = none := by
        rcases hEv k with hl | ⟨h1, _⟩
        · have hget : mapGet acc.2.store k = some e := by rw [hl, hse]
          have hroute : (getValuesStep cfg now acc k).2 = routedDeleteKey cfg acc.2 k := by
            simp [getValuesStep, hget, hexp]
          rw [hroute]
          exact mapGet_routedDeleteKey_self cfg acc.2 k hrole
        · rcases getValuesStep_snd_cases cfg now acc k with hs | ⟨e', _, _, hs⟩ <;> rw [hs]
          · exact h1
          · exact mapGet_routedDeleteKey_none cfg acc.2 k k h1
      exact getValuesFold_store_none cfg now rest _ k hstep

/-- Claim C1: for every list of keys, `getValues` yields, per requested
key, nil when the key is absent, nil (after triggering the role-routed
deletion) when the entry expiry is set and earlier than the clock, and
the stored value otherwise — so no entry whose expiry has passed is
returned as a present value; and on a node that applies deletions
locally (standalone or raft leader), an expired requested entry is gone
from the store when `getValues` returns. -/
theorem getValues_per_key (cfg : Config) (now : Nat) (s : ServerState) (keys : List String)
    (k : String) (hk : k ∈ keys) :
    mapGet (getValues cfg now s keys).1 k = some (specValueAnswer s now k) ∧
    (deletesLocally cfg = true →
      ∀ e, mapGet s.store k = some e → isExpired e now = true →
        mapGet (getValues cfg now s keys).2.store k = none) := by
  unfold getValues
  have hEv : Evolved s s now := fun k => Or.inl rfl
  constructor
  · exact (getValuesFold_spec cfg now s keys ([], s) hEv).2 k hk
  · intro hrole e hse hexp
    exact getValuesFold_deletes cfg now s hrole keys ([], s) hEv k hk e hse hexp

/-- Witness for the C1 theorem at a standalone node, clock 20, and an
entry under `a` whose expiry 10 has passed: the yielded value is nil and
the entry is deleted. -/
theorem getValues_per_key_witness :
    mapGet (getValues cfgStandalone 20 sExpired ["a"]).1 "a" =
      some (specValueAnswer sExpired 20 "a") ∧
    mapGet (getValues cfgStandalone 20 sExpired ["a"]).2.store "a" = none := by
  have h := getValues_per_key cfgStandalone 20 sExpired ["a"] "a" (by decide)
  exact ⟨h.1, h.2 (by decide) { value := some "v", expireAt := some 10 } (by decide) (by decide)⟩

/-- Claim C2 (refuted — code bug): `handleCommand` clears
`stateMutationInProgress` only on the successful local-execution path;
a standalone write command whose handler fails returns its error with
the flag still set. -/
theorem handleCommand_flag_leak :
    (handleCommandCore cfgStandalone
      { isWrite := true, sync := false, handlerResult := Except.error "handler failed",
        raftApplyResult := Except.ok "" }
      { stateCopyInProgress := false, stateMutationInProgress := false }).2.stateMutationInProgress
        = true ∧
    (handleCommandCore cfgStandalone
      { isWrite := true, sync := false, handlerResult := Except.error "handler failed",
        raftApplyResult := Except.ok "" }
      { stateCopyInProgress := false, stateMutationInProgress := false }).1 =
        Except.error "handler failed" :=
  ⟨rfl, rfl⟩

/-- Claim C4 (refuted — code bug): with the `volatile-random` policy,
memory still at the limit after the forced garbage collection and an
empty volatile index, the governor reaches `rand.Intn` with a zero
bound — a runtime panic — instead of returning a no-keys-to-evict
error. -/
theorem adjustMemoryUsage_empty_index_panics :
    (adjustMemoryUsageVolatileRandom cfgVolatileRandom 150 150 [(0, 150)] sOneKey).1 =
      GovOutcome.panicked "rand.Intn: invalid argument" := by
  decide

/-- Claim C5 (refuted — code bug): the sampler's deletion loop performs
no expiry check — a sampled key whose entry is unexpired (expiry 100 at
clock 50) is nevertheless deleted from the store by one pass. -/
theorem evictTTL_deletes_unexpired :
    isExpired { value := some "v", expireAt := some 100 } 50 = false ∧
    mapGet (evictKeysWithExpiredTTLPass cfgStandalone sUnexpired ["k"]).2.store "k" = none := by
  decide

/-- Claim C6 (refuted — code bug): the re-sampling decision divides
before multiplying, so one deletion out of a sample of four — an exact
ratio of 25 percent, at or above the 20 percent threshold — does not
trigger re-sampling. -/
theorem shouldResample_truncates :
    shouldResample 1 4 = false ∧ 20 * 4 ≤ 100 * 1 := by
  decide

/-- Claim C7 (refuted — code bug): `getKeys` preallocates one slot per
stored entry and then appends, so on a store holding exactly the key
`a` it returns an empty-string padding element followed by `a` instead
of the keys alone. -/
theorem getKeys_pads :
    getKeys sOneKey = ["", "a"] ∧ sOneKey.store.map Prod.fst = ["a"] :=
  ⟨rfl, rfl⟩

/-- Claim C3: `setValues` returns the capacity error exactly when
heap-in-use is at or above the configured limit and the policy is
`noeviction`, and whenever it returns that error the server state —
every entry, value and expiry — is unchanged. -/
theorem setValues_capacity (cfg : Config) (heapInuse : Nat) (s : ServerState)
    (entries : List (String × Val)) :
    ((setValues cfg heapInuse s entries).1 = some "max memory reached, key value not set" ↔
      (cfg.maxMemory ≤ heapInuse ∧ cfg.evictionPolicy = NoEviction)) ∧
    ∀ msg, (setValues cfg heapInuse s entries).1 = some msg →
      (setValues cfg heapInuse s entries).2 = s := by
  by_cases h1 : cfg.maxMemory ≤ heapInuse <;>
    by_cases h2 : cfg.evictionPolicy = NoEviction <;>
      simp [setValues, IsMaxMemoryExceeded, h1, h2]

/-- Witness for the C3 theorem: limit 10 and heap reading 10 under
`noeviction` yield the capacity error and leave the state untouched. -/
theorem setValues_capacity_witness :
    (setValues cfgNoEvict10 10 sPreset [("a", some "x")]).1 =
      some "max memory reached, key value not set" ∧
    (setValues cfgNoEvict10 10 sPreset [("a", some "x")]).2 = sPreset := by
  have h := setValues_capacity cfgNoEvict10 10 sPreset [("a", some "x")]
  have herr := h.1.mpr ⟨by decide, rfl⟩
  exact ⟨herr, h.2 _ herr⟩

theorem setValuesEntry_store (cfg : Config) (st : ServerState) (kv : String × Val) :
    (setValuesEntry cfg st kv).store =
      mapSet st.store kv.1 { value := kv.2, expireAt := preservedExpiry st kv.1 } := by
  by_cases h : cfg.inCluster <;> simp [setValuesEntry, h]

theorem preservedExpiry_setValuesEntry_ne (cfg : Config) (st : ServerState)
    (kv : String × Val) (k : String) (h : k ≠ kv.1) :
    preservedExpiry (setValuesEntry cfg st kv) k = preservedExpiry st k := by
  unfold preservedExpiry
  rw [setValuesEntry_store, mapGet_mapSet_ne st.store kv.1 k _ h]

theorem setValuesLoop_not_mem (cfg : Config) :
    ∀ (entries : List (String × Val)) (st : ServerState) (k : String),
      k ∉ entries.map Prod.fst →
      mapGet (entries.foldl (setValuesEntry cfg) st).store k = mapGet st.store k := by
  intro entries
  induction entries with
  | nil =>
    intro st k _
    rfl
  | cons kv rest ih =>
    intro st k hk
    rw [List.map_cons, List.mem_cons, not_or] at hk
    obtain ⟨h1, h2⟩ := hk
    rw [List.foldl_cons, ih _ k h2, setValuesEntry_store]
    exact mapGet_mapSet_ne st.store kv.1 k _ h1

theorem setValuesLoop_mem (cfg : Config) :
    ∀ (entries : List (String × Val)) (st : ServerState) (k : String) (v : Val),
      (entries.map Prod.fst).Nodup → (k, v) ∈ entries →
      mapGet (entries.foldl (setValuesEntry cfg) st).store k =
        some { value := v, expireAt := preservedExpiry st k } := by
  intro entries
  induction entries with
  | nil =>
    intro st k v _ hm
    exact absurd hm (List.not_mem_nil _)
  | cons kv rest ih =>
    obtain ⟨k1, v1⟩ := kv
    intro st k v hn hm
    rw [List.map_cons, List.nodup_cons] at hn
    obtain ⟨hn1, hn2⟩ := hn
    rw [List.foldl_cons]
    rcases List.mem_cons.mp hm with he | hm'
    · injection he with hek hev
      subst hek
      subst hev
      rw [setValuesLoop_not_mem cfg rest _ k hn1, setValuesEntry_store, mapGet_mapSet_self]
    · have hkne : k ≠ k1 := by
        intro he2
        apply hn1
        rw [← he2]
        exact List.mem_map.mpr ⟨(k, v), hm', rfl⟩
      rw [ih _ k v hn2 hm', preservedExpiry_setValuesEntry_ne cfg st (k1, v1) k hkne]

/-- Claim C8: when `setValues` succeeds, every written key holds the
new value under the entry expiry it had before the call — an existing
entry keeps its `expireAt` exactly, and a fresh entry carries no
expiry. -/
theorem setValues_preserves_expiry (cfg : Config) (heapInuse : Nat) (s : ServerState)
    (entries : List (String × Val)) (hn : (entries.map Prod.fst).Nodup)
    (k : String) (v : Val) (hm : (k, v) ∈ entries)
    (hok : (setValues cfg heapInuse s entries).1 = none) :
    mapGet (setValues cfg heapInuse s entries).2.store k =
      some { value := v, expireAt := preservedExpiry s k } := by
  unfold setValues at hok ⊢
  by_cases hc : IsMaxMemoryExceeded cfg.maxMemory heapInuse = true ∧
      cfg.evictionPolicy = NoEviction
  · rw [if_pos hc] at hok
    exact absurd hok (by simp)
  · rw [if_neg hc]
    exact setValuesLoop_mem cfg entries s k v hn hm

/-- Witness for the C8 theorem: updating preset key `a` (expiry 99)
and inserting fresh key `b` keeps expiry 99 on `a` under the new
value. -/
theorem setValues_preserves_expiry_witness :
    mapGet (setValues cfgNoEvict10 0 sPreset [("a", some "new"), ("b", some "w")]).2.store "a" =
      some { value := some "new", expireAt := some 99 } := by
  have h := setValues_preserves_expiry cfgNoEvict10 0 sPreset
    [("a", some "new"), ("b", some "w")] (by decide) "a" (some "new") (by decide) (by decide)
  rw [h]
  rfl

theorem setExpiry_count_one (s : ServerState) (key : String) (t : Option Nat)
    (h : s.keysWithExpiry.count key ≤ 1) :
    (setExpiry s key t).keysWithExpiry.count key = 1 := by
  unfold setExpiry
  by_cases hm : key ∈ s.keysWithExpiry
  · simp only [hm, if_pos]
    have h0 : s.keysWithExpiry.count key ≠ 0 := by
      intro h0
      exact (List.count_eq_zero.mp h0) hm
    omega
  · simp only [hm, if_neg, not_false_iff]
    rw [List.count_append, List.count_eq_zero.mpr hm]
    simp

theorem setExpiry_fold_count (key : String) :
    ∀ (ts : List (Option Nat)) (s : ServerState),
      s.keysWithExpiry.count key = 1 →
      ((ts.foldl (fun st t => setExpiry st key t) s).keysWithExpiry.count key) = 1 := by
  intro ts
  induction ts with
  | nil =>
    intro s h
    exact h
  | cons t rest ih =>
    intro s h
    rw [List.foldl_cons]
    exact ih _ (setExpiry_count_one s key t (le_of_eq h))

/-- Claim C9: over any non-empty sequence of `setExpiry` calls on the
same key, starting from an index holding the key at most once, the key
ends up in the volatile-key index exactly once — insertion is
idempotent. -/
theorem setExpiry_index_idempotent (s : ServerState) (key : String) (ts : List (Option Nat))
    (h1 : s.keysWithExpiry.count key ≤ 1) (h2 : ts ≠ []) :
    ((ts.foldl (fun st t => setExpiry st key t) s).keysWithExpiry.count key) = 1 := by
  cases ts with
  | nil => exact absurd rfl h2
  | cons t rest =>
    rw [List.foldl_cons]
    exact setExpiry_fold_count key rest _ (setExpiry_count_one s key t h1)

/-- Witness for the C9 theorem: two successive expiry writes on key `a`
from the empty state leave `a` in the index exactly once. -/
theorem setExpiry_index_idempotent_witness :
    ((([some 5, none] : List (Option Nat)).foldl
      (fun st t => setExpiry st "a" t) emptyState).keysWithExpiry.count "a") = 1 :=
  setExpiry_index_idempotent emptyState "a" [some 5, none] (by decide) (by decide)

/-- Claim C10: `setExpiry` on a key absent from the store creates an
entry with a nil value and the supplied expiry, and places the key in
the volatile-key index. -/
theorem setExpiry_absent_creates (s : ServerState) (key : String) (e : Option Nat)
    (h : mapGet s.store key = none) :
    mapGet (setExpiry s key e).store key = some { value := none, expireAt := e } ∧
    key ∈ (setExpiry s key e).keysWithExpiry := by
  have hstore : (setExpiry s key e).store =
      mapSet s.store key { value := none, expireAt := e } := by
    unfold setExpiry currentValue
    by_cases hm : key ∈ s.keysWithExpiry <;> simp [hm, h]
  constructor
  · rw [hstore]
    exact mapGet_mapSet_self s.store key _
  · unfold setExpiry
    by_cases hm : key ∈ s.keysWithExpiry <;> simp [hm]

/-- Witness for the C10 theorem: `setExpiry` on key `a` over the empty
store creates the nil-valued entry with expiry 7 and indexes `a`. -/
theorem setExpiry_absent_creates_witness :
    mapGet (setExpiry emptyState "a" (some 7)).store "a" =
      some { value := none, expireAt := some 7 } ∧
    "a" ∈ (setExpiry emptyState "a" (some 7)).keysWithExpiry :=
  setExpiry_absent_creates emptyState "a" (some 7) rfl

end EchoVault
